import Mathlib

/-!
Verification development for the hierarchical task orchestrator core:
the checkpoint service (`checkpoint_service.py`) and the subgraph
orchestrator (`subgraph_orchestrator.py`).

Modelling conventions (shallow embedding):
* Python dicts are association lists; JSON-serializable values are the
  mutual inductive `Json`/`JsonArr`/`JsonObj` below (objects keep
  insertion order, like Python dicts).
* Sources of nondeterminism in the code (`uuid4()`, `datetime.now()`,
  file mtimes) are passed in as explicit parameters.
* The SHA-256 digest is modelled as an injective function of the
  serialized input (the ideal collision-free hash): the development only
  depends on the digest being deterministic and collision-free.
* `async`/`await` concurrency is modelled by sequentializing each
  `asyncio.gather` wave (one fair schedule); `node_results` only grows
  during a wave, so the dependency-ordering and failure properties
  proved below are schedule-independent.
* The `while True` polling loop of `execute` and the recursive retry of
  `_execute_node` receive explicit fuel so the embedding is total; fuel
  exhaustion is reported distinctly (`stalled` for the outer loop),
  which is how the non-termination of the source loop is exhibited.
-/

-- JSON values, as produced by `json`-serializable Python data.
-- Objects are ordered key/value sequences (Python dict order).
mutual

inductive Json where
  | null : Json
  | bool (b : Bool) : Json
  | num (n : Int) : Json
  | str (s : String) : Json
  | arr (elems : JsonArr) : Json
  | obj (fields : JsonObj) : Json

inductive JsonArr where
  | nil : JsonArr
  | cons (hd : Json) (tl : JsonArr) : JsonArr

inductive JsonObj where
  | nil : JsonObj
  | cons (key : String) (val : Json) (tl : JsonObj) : JsonObj

end

def JsonObj.lookup : JsonObj → String → Option Json
  | .nil, _ => none
  | .cons k v t, key => if key == k then some v else JsonObj.lookup t key

/-- `key in d` for a Python dict. -/
def JsonObj.hasKey (o : JsonObj) (key : String) : Bool :=
  (o.lookup key).isSome

/-- `d[key] = val` for a Python dict: replaces in place, or appends. -/
def JsonObj.setk : JsonObj → String → Json → JsonObj
  | .nil, k, v => .cons k v .nil
  | .cons k' v' t, k, v =>
    if k == k' then .cons k v t else .cons k' v' (JsonObj.setk t k v)

def JsonObj.keys : JsonObj → List String
  | .nil => []
  | .cons k _ t => k :: JsonObj.keys t

/-- Insert an entry into a key-sorted object, keeping it sorted. -/
def JsonObj.insertSorted (k : String) (v : Json) : JsonObj → JsonObj
  | .nil => .cons k v .nil
  | .cons k' v' t =>
    if k ≤ k' then .cons k v (.cons k' v' t)
    else .cons k' v' (JsonObj.insertSorted k v t)

/-- Sort an object's fields by key (insertion sort). -/
def JsonObj.sortFields : JsonObj → JsonObj
  | .nil => .nil
  | .cons k v t => JsonObj.insertSorted k v (JsonObj.sortFields t)

-- Recursively sort every object's keys: the effect of
-- `json.dumps(..., sort_keys=True)` on the emitted structure.
mutual

def Json.canon : Json → Json
  | .null => .null
  | .bool b => .bool b
  | .num n => .num n
  | .str s => .str s
  | .arr xs => .arr (JsonArr.canonArr xs)
  | .obj fs => .obj (JsonObj.sortFields (JsonObj.canonObj fs))

def JsonArr.canonArr : JsonArr → JsonArr
  | .nil => .nil
  | .cons x t => .cons (Json.canon x) (JsonArr.canonArr t)

def JsonObj.canonObj : JsonObj → JsonObj
  | .nil => .nil
  | .cons k v t => .cons k (Json.canon v) (JsonObj.canonObj t)

end

-- Serialize a JSON value (assumed already canonicalized), in the style
-- of Python's `json.dumps` (string-escape details elided).
mutual

def Json.dumps : Json → String
  | .null => "null"
  | .bool true => "true"
  | .bool false => "false"
  | .num n => toString n
  | .str s => "\"" ++ s ++ "\""
  | .arr xs => "[" ++ JsonArr.dumpsArr xs ++ "]"
  | .obj fs => "\x7b" ++ JsonObj.dumpsObj fs ++ "\x7d"

def JsonArr.dumpsArr : JsonArr → String
  | .nil => ""
  | .cons x .nil => Json.dumps x
  | .cons x (.cons y t) => Json.dumps x ++ ", " ++ JsonArr.dumpsArr (.cons y t)

def JsonObj.dumpsObj : JsonObj → String
  | .nil => ""
  | .cons k v .nil => "\"" ++ k ++ "\": " ++ Json.dumps v
  | .cons k v (.cons k' v' t) =>
    "\"" ++ k ++ "\": " ++ Json.dumps v ++ ", " ++ JsonObj.dumpsObj (.cons k' v' t)

end

/-- SHA-256 hex digest, modelled as an injective function of the digested
string (ideal collision-free hash); the development only depends on the
digest being a deterministic, collision-free function of its input. -/
def sha256hex (s : String) : String := s

/-- `CheckpointService._compute_checksum`: SHA-256 over
`json.dumps(state, sort_keys=True)`. -/
def _compute_checksum (state : JsonObj) : String :=
  sha256hex (Json.dumps (Json.canon (Json.obj state)))

-- ----------------------------------------------------------------------
-- Generic association lists, modelling Python dicts with non-JSON values
-- ----------------------------------------------------------------------

/-- `d[k] = v` for a Python dict: replaces the entry in place, or
appends a new one at the end. -/
def setk {α : Type} : List (String × α) → String → α → List (String × α)
  | [], k, v => [(k, v)]
  | (k', v') :: t, k, v =>
    if k == k' then (k, v) :: t else (k', v') :: setk t k v

/-- `d.pop(k)` / file deletion: removes the entry for `k`. -/
def eraseKey {α : Type} (l : List (String × α)) (k : String) : List (String × α) :=
  l.filter (fun p => !(p.1 == k))

-- ----------------------------------------------------------------------
-- checkpoint_service.py : data model
-- ----------------------------------------------------------------------

/-- The `Checkpoint` dataclass. -/
structure Checkpoint where
  id : String
  agent_id : String
  session_id : String
  state : JsonObj
  metadata : JsonObj
  created_at : String
  checksum : String

/-- One persisted checkpoint file: the JSON document written by `create`
(fields identical to `Checkpoint`) together with its filesystem
last-modified time (`st_mtime`, seconds). -/
structure StoredEntry where
  data : Checkpoint
  st_mtime : Nat

/-- `CheckpointService` state: the in-memory cache `_checkpoints` and
the durable storage directory, one entry per `<id>.json` file. -/
structure CheckpointService where
  _checkpoints : List (String × Checkpoint)
  checkpoint_dir : List (String × StoredEntry)

/-- The distinct integrity failure raised by `restore`
(`ValueError` whose message carries the checkpoint id). -/
inductive RestoreError where
  | integrityError (checkpoint_id : String) : RestoreError
deriving DecidableEq

/-- `CheckpointService.create`: computes the checksum of `state`,
builds the record, writes it to durable storage and to the in-memory
cache, and returns it.  The fresh id (`str(uuid4())[:8]`), the creation
timestamp and the file mtime are passed in explicitly; the accepted but
unused `parent_id` parameter of the source is omitted. -/
def CheckpointService.create (svc : CheckpointService)
    (agent_id session_id : String) (state : JsonObj)
    (metadata : Option JsonObj) (checkpoint_id created_at : String)
    (mtime : Nat) : Checkpoint × CheckpointService :=
  let checksum := _compute_checksum state
  let checkpoint : Checkpoint :=
    { id := checkpoint_id, agent_id := agent_id, session_id := session_id,
      state := state, metadata := metadata.getD JsonObj.nil,
      created_at := created_at, checksum := checksum }
  (checkpoint,
   { _checkpoints := setk svc._checkpoints checkpoint_id checkpoint,
     checkpoint_dir := setk svc.checkpoint_dir checkpoint_id
       { data := checkpoint, st_mtime := mtime } })

/-- `CheckpointService.get`: in-memory cache first; on a miss, parse the
persisted file (`Checkpoint(**data)`); `None` when absent from both.
The method body never writes to `self._checkpoints`, so the service
state is returned unchanged. -/
def CheckpointService.get (svc : CheckpointService) (checkpoint_id : String) :
    Option Checkpoint × CheckpointService :=
  match svc._checkpoints.lookup checkpoint_id with
  | some cp => (some cp, svc)
  | none =>
    match svc.checkpoint_dir.lookup checkpoint_id with
    | none => (none, svc)
    | some entry => (some entry.data, svc)

/-- `CheckpointService.restore`: loads via `get`; `None` stays `None`;
recomputes the checksum of the loaded state and raises the integrity
error when it differs from the stored checksum. -/
def CheckpointService.restore (svc : CheckpointService) (checkpoint_id : String) :
    Except RestoreError (Option JsonObj) :=
  match (svc.get checkpoint_id).1 with
  | none => Except.ok none
  | some checkpoint =>
    if _compute_checksum checkpoint.state != checkpoint.checksum then
      Except.error (RestoreError.integrityError checkpoint_id)
    else
      Except.ok (some checkpoint.state)

/-- `CheckpointService.delete`: if the file exists, unlink it, drop the
cache entry (`pop(id, None)`) and return `True`; otherwise `False`. -/
def CheckpointService.delete (svc : CheckpointService) (checkpoint_id : String) :
    Bool × CheckpointService :=
  if (svc.checkpoint_dir.lookup checkpoint_id).isSome then
    (true,
     { _checkpoints := eraseKey svc._checkpoints checkpoint_id,
       checkpoint_dir := eraseKey svc.checkpoint_dir checkpoint_id })
  else
    (false, svc)

/-- `CheckpointService.gc`: deletes every stored file whose mtime is
strictly older than `now - max_age_hours * 3600`, counting one per such
file.  `now` (the current UNIX timestamp) is passed in explicitly. -/
def CheckpointService.gc (svc : CheckpointService) (max_age_hours : Nat)
    (now : Nat) : Nat × CheckpointService :=
  let cutoff : Int := (now : Int) - (max_age_hours : Int) * 3600
  svc.checkpoint_dir.foldl
    (fun acc p =>
      if (p.2.st_mtime : Int) < cutoff then
        (acc.1 + 1, (acc.2.delete p.1).2)
      else acc)
    (0, svc)

-- ----------------------------------------------------------------------
-- subgraph_orchestrator.py : data model
-- ----------------------------------------------------------------------

/-- The `SubgraphState` enum. -/
inductive SubgraphState where
  | pending | running | waiting | completed | failed | cancelled
deriving DecidableEq

/-- The `SubgraphNode` dataclass.  The optional `input_mapper` /
`output_mapper` callables are modelled as total Lean functions. -/
structure SubgraphNode where
  id : String
  name : String
  agent_type : String
  depends_on : List String
  input_mapper : Option (JsonObj → JsonObj) := none
  output_mapper : Option (Json → Json) := none
  retry_count : Nat := 0
  max_retries : Nat := 3
  status : SubgraphState := SubgraphState.pending

/-- The `SubgraphEdge` dataclass. -/
structure SubgraphEdge where
  source : String
  target : String
  condition : Option (Json → Bool) := none

/-- The `SubgraphExecution` dataclass.  `nodes` is the dict from node id
to node; `node_results` the dict from node id to its recorded result. -/
structure SubgraphExecution where
  id : String
  subgraph_id : String
  nodes : List (String × SubgraphNode)
  edges : List SubgraphEdge
  state : JsonObj := JsonObj.nil
  node_results : JsonObj := JsonObj.nil
  status : SubgraphState := SubgraphState.pending
  started_at : Option String := none
  completed_at : Option String := none

/-- The opaque asynchronous agent capability behind `_run_agent`,
modelled as an environment oracle: it receives the `agent_type` tag, the
prepared input, and the node's current `retry_count` (so the environment
can behave differently on different attempts), and returns a result or
raises an error. -/
def AgentFn : Type := String → JsonObj → Nat → Except String Json

/-- One observed agent invocation: the node id, the keys present in
`node_results` at the moment of the call, and the node's `retry_count`
at the call (0 on the first attempt). -/
structure Event where
  node : String
  resultKeys : List String
  attempt : Nat
deriving DecidableEq

/-- How a call to `execute` ends: returns normally (`completed`),
propagates an exception (`raised`), or is still spinning in the
busy-poll loop when the modelling fuel runs out (`stalled`). -/
inductive ExecOutcome where
  | completed : ExecOutcome
  | raised (e : String) : ExecOutcome
  | stalled : ExecOutcome
deriving DecidableEq

/-- `SubgraphOrchestrator._get_executable_nodes`: the ids of nodes all
of whose `depends_on` ids have results and which have no result yet. -/
def _get_executable_nodes (ex : SubgraphExecution) : List String :=
  (ex.nodes.filter (fun p =>
    p.2.depends_on.all (fun dep => ex.node_results.hasKey dep) &&
    !(ex.node_results.hasKey p.1))).map Prod.fst

/-- `SubgraphOrchestrator._prepare_input`: a copy of the shared state
under `"state"`, plus each dependency's recorded result, then the
node's `input_mapper` if present. -/
def _prepare_input (ex : SubgraphExecution) (node : SubgraphNode) : JsonObj :=
  let base := JsonObj.cons "state" (Json.obj ex.state) JsonObj.nil
  let withDeps := node.depends_on.foldl
    (fun acc dep =>
      match ex.node_results.lookup dep with
      | some r => acc.setk dep r
      | none => acc)
    base
  match node.input_mapper with
  | some f => f withDeps
  | none => withDeps

/-- `SubgraphOrchestrator._map_output` (the unused `execution`
parameter of the source is omitted). -/
def _map_output (node : SubgraphNode) (result : Json) : Json :=
  match node.output_mapper with
  | some f => f result
  | none => result

/-- `SubgraphOrchestrator._execute_node`: one node execution with the
source's retry loop.  Returns the updated execution record, the list of
agent invocations performed, and the result or the propagated error.
`fuel` bounds the retry recursion (any value above `max_retries`
is enough); the exponential-backoff sleep has no observable effect in
the model and is elided. -/
def _execute_node (agent : AgentFn) :
    Nat → SubgraphExecution → String →
    SubgraphExecution × List Event × Except String Json
  | 0, ex, _ => (ex, [], Except.error "retry fuel exhausted")
  | fuel + 1, ex, node_id =>
    match ex.nodes.lookup node_id with
    | none => (ex, [], Except.error "node not found")
    | some node =>
      let input := _prepare_input ex node
      let ev : Event :=
        { node := node_id, resultKeys := ex.node_results.keys,
          attempt := node.retry_count }
      match agent node.agent_type input node.retry_count with
      | Except.ok result =>
        let output := _map_output node result
        ({ ex with node_results := ex.node_results.setk node_id output },
         [ev], Except.ok output)
      | Except.error e =>
        let node' := { node with retry_count := node.retry_count + 1 }
        let ex' := { ex with nodes := setk ex.nodes node_id node' }
        if node'.retry_count < node'.max_retries then
          let r := _execute_node agent fuel ex' node_id
          (r.1, ev :: r.2.1, r.2.2)
        else
          ({ ex' with status := SubgraphState.failed }, [ev], Except.error e)

/-- One `asyncio.gather` wave, sequentialized: runs `_execute_node` for
each ready node in turn; the first error (if any) is the one the wave
propagates to `execute`. -/
def runWave (agent : AgentFn) (nodeFuel : Nat) :
    SubgraphExecution → List String →
    SubgraphExecution × List Event × Option String
  | ex, [] => (ex, [], none)
  | ex, node_id :: rest =>
    let r := _execute_node agent nodeFuel ex node_id
    let s := runWave agent nodeFuel r.1 rest
    (s.1, r.2.1 ++ s.2.1,
     match r.2.2 with
     | Except.error e => some e
     | Except.ok _ => s.2.2)

/-- The termination test of `execute`'s polling loop: every node either
has a result or is individually marked `FAILED`. -/
def allProcessed (ex : SubgraphExecution) : Bool :=
  ex.nodes.all (fun p =>
    ex.node_results.hasKey p.1 || p.2.status == SubgraphState.failed)

/-- The `while True` loop of `execute`.  When no node is ready and the
graph is not exhausted the source sleeps 0.1s and polls again forever;
the loop fuel makes that spin observable as `stalled`. -/
def executeLoop (agent : AgentFn) (nodeFuel : Nat) :
    Nat → SubgraphExecution →
    SubgraphExecution × List Event × ExecOutcome
  | 0, ex => (ex, [], ExecOutcome.stalled)
  | fuel + 1, ex =>
    match _get_executable_nodes ex with
    | [] =>
      if allProcessed ex then (ex, [], ExecOutcome.completed)
      else executeLoop agent nodeFuel fuel ex
    | nid :: rest =>
      let r := runWave agent nodeFuel ex (nid :: rest)
      match r.2.2 with
      | some e => (r.1, r.2.1, ExecOutcome.raised e)
      | none =>
        let s := executeLoop agent nodeFuel fuel r.1
        (s.1, r.2.1 ++ s.2.1, s.2.2)

/-- The value of a finished `execute` call: the final execution record,
the trace of agent invocations, and how the call ended. -/
structure ExecResult where
  ex : SubgraphExecution
  trace : List Event
  outcome : ExecOutcome

/-- `SubgraphOrchestrator.execute` on an execution record: seeds
`state`, marks it `RUNNING` with a start timestamp, runs the polling
loop, and on normal exhaustion marks it `COMPLETED` with a completion
timestamp.  The two timestamps are passed in explicitly. -/
def execute (agent : AgentFn) (nodeFuel loopFuel : Nat)
    (ex0 : SubgraphExecution) (initial_state : JsonObj)
    (t_start t_end : String) : ExecResult :=
  let ex1 := { ex0 with
    state := initial_state, status := SubgraphState.running,
    started_at := some t_start }
  let r := executeLoop agent nodeFuel loopFuel ex1
  match r.2.2 with
  | ExecOutcome.completed =>
    let exFinal := { r.1 with
      status := SubgraphState.completed, completed_at := some t_end }
    { ex := exFinal, trace := r.2.1, outcome := ExecOutcome.completed }
  | o => { ex := r.1, trace := r.2.1, outcome := o }

/-- `SubgraphOrchestrator.create_subgraph`: a fresh execution record
over the given nodes and edges (the runtime execution id is passed in
explicitly). -/
def create_subgraph (exec_id subgraph_id : String)
    (nodes : List SubgraphNode) (edges : List SubgraphEdge) :
    SubgraphExecution :=
  { id := exec_id, subgraph_id := subgraph_id,
    nodes := nodes.map (fun n => (n.id, n)), edges := edges }

-- ----------------------------------------------------------------------
-- Association-list and JsonObj lemmas
-- ----------------------------------------------------------------------

theorem lookup_setk_self {α : Type} (l : List (String × α)) (k : String) (v : α) :
    (setk l k v).lookup k = some v := by
  induction l with
  | nil => simp [setk, List.lookup]
  | cons p t ih =>
    obtain ⟨k', v'⟩ := p
    by_cases h : k = k'
    · subst h
      simp [setk, List.lookup]
    · have hb : (k == k') = false := beq_eq_false_iff_ne.mpr h
      simp [setk, List.lookup, hb, ih]

theorem lookup_setk_ne {α : Type} (l : List (String × α)) (k m : String) (v : α)
    (h : m ≠ k) : (setk l k v).lookup m = l.lookup m := by
  have hb : (m == k) = false := beq_eq_false_iff_ne.mpr h
  induction l with
  | nil => simp [setk, List.lookup, hb]
  | cons p t ih =>
    obtain ⟨k', v'⟩ := p
    by_cases hk : k = k'
    · subst hk
      simp [setk, List.lookup, hb]
    · have hbk : (k == k') = false := beq_eq_false_iff_ne.mpr hk
      by_cases hm : m = k'
      · subst hm
        simp [setk, List.lookup, hbk]
      · have hbm : (m == k') = false := beq_eq_false_iff_ne.mpr hm
        simp [setk, List.lookup, hbk, hbm, ih]

theorem lookup_eraseKey_self {α : Type} (l : List (String × α)) (k : String) :
    (eraseKey l k).lookup k = none := by
  induction l with
  | nil => simp [eraseKey, List.lookup]
  | cons p t ih =>
    obtain ⟨k', v'⟩ := p
    by_cases h : k' = k
    · subst h
      simp [eraseKey, List.filter] at ih ⊢
      exact ih
    · have hb : (k' == k) = false := beq_eq_false_iff_ne.mpr h
      have hbk : (k == k') = false := beq_eq_false_iff_ne.mpr (fun hh => h hh.symm)
      simp [eraseKey, List.filter, hb, List.lookup, hbk] at ih ⊢
      exact ih

theorem lookup_eraseKey_ne {α : Type} (l : List (String × α)) (k m : String)
    (h : m ≠ k) : (eraseKey l k).lookup m = l.lookup m := by
  induction l with
  | nil => simp [eraseKey]
  | cons p t ih =>
    obtain ⟨k', v'⟩ := p
    by_cases hk : k' = k
    · subst hk
      have hbm : (m == k') = false := beq_eq_false_iff_ne.mpr h
      simp [eraseKey, List.filter, List.lookup, hbm] at ih ⊢
      exact ih
    · have hb : (k' == k) = false := beq_eq_false_iff_ne.mpr hk
      by_cases hm : m = k'
      · subst hm
        simp [eraseKey, List.filter, hb, List.lookup]
      · have hbm : (m == k') = false := beq_eq_false_iff_ne.mpr hm
        simp [eraseKey, List.filter, hb, List.lookup, hbm] at ih ⊢
        exact ih

theorem lookup_mem {α : Type} {l : List (String × α)} {k : String} {v : α}
    (h : l.lookup k = some v) : (k, v) ∈ l := by
  induction l with
  | nil => simp [List.lookup] at h
  | cons p t ih =>
    obtain ⟨k', v'⟩ := p
    by_cases hk : k = k'
    · subst hk
      simp [List.lookup] at h
      simp [h]
    · have hb : (k == k') = false := beq_eq_false_iff_ne.mpr hk
      simp [List.lookup, hb] at h
      exact List.mem_cons_of_mem _ (ih h)

theorem lookup_of_mem_nodup {α : Type} {l : List (String × α)} {k : String} {v : α}
    (hnd : (l.map Prod.fst).Nodup) (h : (k, v) ∈ l) : l.lookup k = some v := by
  induction l with
  | nil => simp at h
  | cons p t ih =>
    obtain ⟨k', v'⟩ := p
    simp only [List.map_cons, List.nodup_cons] at hnd
    rcases List.mem_cons.mp h with h1 | h2
    · injection h1 with hk hv
      subst hk
      subst hv
      simp [List.lookup]
    · have hne : k ≠ k' := by
        rintro rfl
        exact hnd.1 (List.mem_map.mpr ⟨(k, v), h2, rfl⟩)
      have hb : (k == k') = false := beq_eq_false_iff_ne.mpr hne
      simp [List.lookup, hb]
      exact ih hnd.2 h2

theorem lookup_none_of_not_mem_keys {α : Type} {l : List (String × α)} {k : String}
    (h : k ∉ l.map Prod.fst) : l.lookup k = none := by
  induction l with
  | nil => simp [List.lookup]
  | cons p t ih =>
    obtain ⟨k', v'⟩ := p
    simp only [List.map_cons, List.mem_cons] at h
    push_neg at h
    have hb : (k == k') = false := beq_eq_false_iff_ne.mpr h.1
    have ht := ih h.2
    simp [List.lookup, hb, ht]

theorem mem_keys_of_lookup_isSome {α : Type} {l : List (String × α)} {k : String}
    (h : (l.lookup k).isSome) : k ∈ l.map Prod.fst := by
  by_contra hc
  rw [lookup_none_of_not_mem_keys hc] at h
  simp at h

theorem JsonObj.lookup_setk_same : ∀ (o : JsonObj) (k : String) (v : Json),
    (o.setk k v).lookup k = some v
  | .nil, k, v => by simp [JsonObj.setk, JsonObj.lookup]
  | .cons k' v' t, k, v => by
    by_cases h : k = k'
    · subst h
      simp [JsonObj.setk, JsonObj.lookup]
    · have hb : (k == k') = false := beq_eq_false_iff_ne.mpr h
      simp [JsonObj.setk, JsonObj.lookup, hb,
        JsonObj.lookup_setk_same t k v]

theorem JsonObj.lookup_setk_other : ∀ (o : JsonObj) (k m : String) (v : Json),
    m ≠ k → (o.setk k v).lookup m = o.lookup m
  | .nil, k, m, v, h => by
    have hb : (m == k) = false := beq_eq_false_iff_ne.mpr h
    simp [JsonObj.setk, JsonObj.lookup, hb]
  | .cons k' v' t, k, m, v, h => by
    have hb : (m == k) = false := beq_eq_false_iff_ne.mpr h
    by_cases hk : k = k'
    · subst hk
      simp [JsonObj.setk, JsonObj.lookup, hb]
    · have hbk : (k == k') = false := beq_eq_false_iff_ne.mpr hk
      by_cases hm : m = k'
      · subst hm
        simp [JsonObj.setk, JsonObj.lookup, hbk]
      · have hbm : (m == k') = false := beq_eq_false_iff_ne.mpr hm
        simp [JsonObj.setk, JsonObj.lookup, hbk, hbm,
          JsonObj.lookup_setk_other t k m v h]

theorem JsonObj.hasKey_setk (o : JsonObj) (k d : String) (v : Json)
    (h : o.hasKey d = true) : (o.setk k v).hasKey d = true := by
  by_cases hd : d = k
  · subst hd
    simp [JsonObj.hasKey, JsonObj.lookup_setk_same]
  · simpa [JsonObj.hasKey, JsonObj.lookup_setk_other o k d v hd] using h

theorem JsonObj.hasKey_iff_mem_keys : ∀ (o : JsonObj) (d : String),
    o.hasKey d = true ↔ d ∈ o.keys
  | .nil, d => by simp [JsonObj.hasKey, JsonObj.lookup, JsonObj.keys]
  | .cons k v t, d => by
    by_cases h : d = k
    · subst h
      simp [JsonObj.hasKey, JsonObj.lookup, JsonObj.keys]
    · have hb : (d == k) = false := beq_eq_false_iff_ne.mpr h
      simp [JsonObj.hasKey, JsonObj.lookup, JsonObj.keys, hb, h]
      exact JsonObj.hasKey_iff_mem_keys t d

-- ----------------------------------------------------------------------
-- Claim C1: checkpoint round-trip
-- ----------------------------------------------------------------------

/-- C1: for every JSON-serializable state mapping, `create` followed by
`restore` on the returned checkpoint's id returns a value deep-equal to
the original state, and the persisted record's checksum matches the
checksum recomputed from the persisted state. -/
theorem checkpoint_roundtrip (svc : CheckpointService)
    (agent_id session_id : String) (state : JsonObj)
    (metadata : Option JsonObj) (checkpoint_id created_at : String)
    (mtime : Nat) :
    ((svc.create agent_id session_id state metadata checkpoint_id
        created_at mtime).2.restore
      (svc.create agent_id session_id state metadata checkpoint_id
        created_at mtime).1.id = Except.ok (some state))
    ∧ (∃ e,
        (svc.create agent_id session_id state metadata checkpoint_id
          created_at mtime).2.checkpoint_dir.lookup
          (svc.create agent_id session_id state metadata checkpoint_id
            created_at mtime).1.id = some e
        ∧ e.data.state = state
        ∧ e.data.checksum = _compute_checksum e.data.state) := by
  constructor
  · simp [CheckpointService.create, CheckpointService.restore,
      CheckpointService.get, lookup_setk_self, bne_self_eq_false]
  · refine ⟨⟨(svc.create agent_id session_id state metadata checkpoint_id
        created_at mtime).1, mtime⟩, ?_, rfl, rfl⟩
    simp [CheckpointService.create, lookup_setk_self]

-- ----------------------------------------------------------------------
-- Claim C2: integrity check on restore
-- ----------------------------------------------------------------------

/-- C2 (amended): `restore(id)` raises the integrity error, carrying
`id`, exactly when the checkpoint that `get` returns has a recomputed
checksum differing from its stored checksum; mutating the persisted
record's state field without updating its checksum causes a subsequent
restore of that id to raise the integrity error provided the id is not
in the in-memory cache (e.g. after a process restart) — when the cache
still holds the original record, restore returns the cached original
state and never consults storage; restore returns `None` exactly when
the id is absent from both cache and storage. -/
theorem get_fst_cache {svc : CheckpointService} {cid : String} {cp : Checkpoint}
    (h : svc._checkpoints.lookup cid = some cp) : (svc.get cid).1 = some cp := by
  simp [CheckpointService.get, h]

theorem get_fst_storage {svc : CheckpointService} {cid : String} {e : StoredEntry}
    (hc : svc._checkpoints.lookup cid = none)
    (hd : svc.checkpoint_dir.lookup cid = some e) : (svc.get cid).1 = some e.data := by
  simp [CheckpointService.get, hc, hd]

theorem get_fst_none_iff {svc : CheckpointService} {cid : String} :
    (svc.get cid).1 = none ↔
      (svc._checkpoints.lookup cid = none ∧ svc.checkpoint_dir.lookup cid = none) := by
  rcases hc : svc._checkpoints.lookup cid with _ | cp
  · rcases hd : svc.checkpoint_dir.lookup cid with _ | e
    · simp [CheckpointService.get, hc, hd]
    · simp [CheckpointService.get, hc, hd]
  · simp [CheckpointService.get, hc]

theorem restore_of_get_none {svc : CheckpointService} {cid : String}
    (h : (svc.get cid).1 = none) : svc.restore cid = Except.ok none := by
  unfold CheckpointService.restore
  rw [h]

theorem restore_of_get_mismatch {svc : CheckpointService} {cid : String} {cp : Checkpoint}
    (h : (svc.get cid).1 = some cp)
    (hchk : _compute_checksum cp.state ≠ cp.checksum) :
    svc.restore cid = Except.error (RestoreError.integrityError cid) := by
  unfold CheckpointService.restore
  rw [h]
  simp [bne_iff_ne, hchk]

theorem restore_of_get_match {svc : CheckpointService} {cid : String} {cp : Checkpoint}
    (h : (svc.get cid).1 = some cp)
    (hchk : _compute_checksum cp.state = cp.checksum) :
    svc.restore cid = Except.ok (some cp.state) := by
  unfold CheckpointService.restore
  rw [h]
  simp [hchk, bne_self_eq_false]

/-- C2 (amended): `restore(id)` raises the integrity error, carrying
`id`, exactly when the checkpoint that `get` returns has a recomputed
checksum differing from its stored checksum; mutating the persisted
record's state field without updating its checksum causes a subsequent
restore of that id to raise the integrity error provided the id is not
in the in-memory cache (e.g. after a process restart) — when the cache
still holds the original record, restore returns the cached original
state and never consults storage; restore returns `None` exactly when
the id is absent from both cache and storage. -/
theorem restore_integrity (svc : CheckpointService) (checkpoint_id : String) :
    ((∃ err, svc.restore checkpoint_id = Except.error err) ↔
      (∃ cp, (svc.get checkpoint_id).1 = some cp
        ∧ _compute_checksum cp.state ≠ cp.checksum))
    ∧ (∀ err, svc.restore checkpoint_id = Except.error err →
        err = RestoreError.integrityError checkpoint_id)
    ∧ (svc._checkpoints.lookup checkpoint_id = none →
        ∀ e, svc.checkpoint_dir.lookup checkpoint_id = some e →
          _compute_checksum e.data.state ≠ e.data.checksum →
          svc.restore checkpoint_id =
            Except.error (RestoreError.integrityError checkpoint_id))
    ∧ (∀ cp, svc._checkpoints.lookup checkpoint_id = some cp →
        _compute_checksum cp.state = cp.checksum →
        svc.restore checkpoint_id = Except.ok (some cp.state))
    ∧ (svc.restore checkpoint_id = Except.ok none ↔
        (svc._checkpoints.lookup checkpoint_id = none
          ∧ svc.checkpoint_dir.lookup checkpoint_id = none)) := by
  refine ⟨?_, ?_, ?_, ?_, ?_⟩
  · constructor
    · intro ⟨err, herr⟩
      rcases hget : (svc.get checkpoint_id).1 with _ | cp
      · rw [restore_of_get_none hget] at herr
        exact absurd herr (by simp)
      · by_cases hchk : _compute_checksum cp.state = cp.checksum
        · rw [restore_of_get_match hget hchk] at herr
          exact absurd herr (by simp)
        · exact ⟨cp, rfl, hchk⟩
    · intro ⟨cp, hget, hchk⟩
      exact ⟨_, restore_of_get_mismatch hget hchk⟩
  · intro err herr
    rcases hget : (svc.get checkpoint_id).1 with _ | cp
    · rw [restore_of_get_none hget] at herr
      exact absurd herr (by simp)
    · by_cases hchk : _compute_checksum cp.state = cp.checksum
      · rw [restore_of_get_match hget hchk] at herr
        exact absurd herr (by simp)
      · rw [restore_of_get_mismatch hget hchk] at herr
        injection herr with h
        exact h.symm
  · intro hc e hd hchk
    exact restore_of_get_mismatch (get_fst_storage hc hd) hchk
  · intro cp hc hchk
    exact restore_of_get_match (get_fst_cache hc) hchk
  · constructor
    · intro h
      rcases hget : (svc.get checkpoint_id).1 with _ | cp
      · exact get_fst_none_iff.mp hget
      · by_cases hchk : _compute_checksum cp.state = cp.checksum
        · rw [restore_of_get_match hget hchk] at h
          exact absurd h (by simp)
        · rw [restore_of_get_mismatch hget hchk] at h
          exact absurd h (by simp)
    · intro h
      exact restore_of_get_none (get_fst_none_iff.mpr h)

/-- Original checkpointed state for the C2 scenario. -/
def stateOrigC2 : JsonObj := JsonObj.cons "k" (Json.num 1) JsonObj.nil

/-- The mutated state written over the persisted record's state field. -/
def stateTamperedC2 : JsonObj := JsonObj.cons "k" (Json.num 2) JsonObj.nil

/-- The checkpoint as created (consistent state and checksum). -/
def cpOrigC2 : Checkpoint :=
  { id := "c1", agent_id := "agent", session_id := "sess",
    state := stateOrigC2, metadata := JsonObj.nil, created_at := "t0",
    checksum := _compute_checksum stateOrigC2 }

/-- The service right after `create` followed by an external mutation of
the persisted file's state field (checksum left unchanged): the
in-memory cache still holds the original record. -/
def svcTamperedC2 : CheckpointService :=
  { _checkpoints := [("c1", cpOrigC2)],
    checkpoint_dir := [("c1",
      { data := { cpOrigC2 with state := stateTamperedC2 }, st_mtime := 100 })] }

/-- C2 counterexample: the persisted record's state was mutated without
updating its checksum (the recomputed checksum differs from the stored
one), yet a subsequent `restore` of that id does not raise the
integrity error — the cache-first lookup in `get` returns the cached
original record, so `restore` succeeds with the original state. -/
theorem restore_tampered_cached_no_error :
    _compute_checksum ({ cpOrigC2 with state := stateTamperedC2 }).state ≠
      ({ cpOrigC2 with state := stateTamperedC2 }).checksum
    ∧ svcTamperedC2.restore "c1" = Except.ok (some stateOrigC2) :=
  ⟨by decide, rfl⟩

/-- The same tampered storage with the id absent from the cache
(a fresh service instance, as after a crash). -/
def svcTamperedFreshC2 : CheckpointService :=
  { _checkpoints := [],
    checkpoint_dir := [("c1",
      { data := { cpOrigC2 with state := stateTamperedC2 }, st_mtime := 100 })] }

/-- Witness for C2 (amended): on a cache miss over the tampered
storage, `restore` raises the integrity error carrying the id. -/
theorem restore_integrity_witness :
    svcTamperedFreshC2.restore "c1" =
      Except.error (RestoreError.integrityError "c1") :=
  (restore_integrity svcTamperedFreshC2 "c1").2.2.1 rfl
    { data := { cpOrigC2 with state := stateTamperedC2 }, st_mtime := 100 }
    rfl (by decide)

-- ----------------------------------------------------------------------
-- Claim C8: get and the in-memory cache
-- ----------------------------------------------------------------------

/-- C8 (amended): `get(id)` consults the in-memory cache first; on a
cache miss it loads the record from durable storage WITHOUT
re-populating the cache — the method never writes to `_checkpoints`, so
the service state after `get` is unchanged and a storage-only id is
still absent from the cache; `get` returns `None` exactly when the id
is absent from both cache and storage. -/
theorem get_cache_first_no_repopulate (svc : CheckpointService) (checkpoint_id : String) :
    ((svc.get checkpoint_id).2 = svc)
    ∧ (∀ cp, svc._checkpoints.lookup checkpoint_id = some cp →
        (svc.get checkpoint_id).1 = some cp)
    ∧ (svc._checkpoints.lookup checkpoint_id = none →
        ∀ e, svc.checkpoint_dir.lookup checkpoint_id = some e →
          ((svc.get checkpoint_id).1 = some e.data
            ∧ (svc.get checkpoint_id).2._checkpoints.lookup checkpoint_id = none))
    ∧ ((svc.get checkpoint_id).1 = none ↔
        (svc._checkpoints.lookup checkpoint_id = none
          ∧ svc.checkpoint_dir.lookup checkpoint_id = none)) := by
  refine ⟨?_, ?_, ?_, get_fst_none_iff⟩
  · unfold CheckpointService.get
    rcases svc._checkpoints.lookup checkpoint_id with _ | cp
    · rcases svc.checkpoint_dir.lookup checkpoint_id with _ | e
      · rfl
      · rfl
    · rfl
  · intro cp hc
    exact get_fst_cache hc
  · intro hc e hd
    refine ⟨get_fst_storage hc hd, ?_⟩
    have h2 : (svc.get checkpoint_id).2 = svc := by
      unfold CheckpointService.get
      rw [hc, hd]
    rw [h2, hc]

def cpOrigC8 : Checkpoint :=
  { id := "c8", agent_id := "agent", session_id := "sess",
    state := JsonObj.nil, metadata := JsonObj.nil, created_at := "t0",
    checksum := _compute_checksum JsonObj.nil }

/-- A service holding one checkpoint in durable storage only (as after
a process restart with a pre-existing checkpoint file). -/
def svcStorageOnlyC8 : CheckpointService :=
  { _checkpoints := [],
    checkpoint_dir := [("c8", { data := cpOrigC8, st_mtime := 5 })] }

/-- C8 counterexample: `get` finds the record in durable storage, yet
after the call the cache still has no entry for that id — the code
never re-populates the cache on a storage hit. -/
theorem get_storage_hit_cache_not_repopulated :
    (svcStorageOnlyC8.get "c8").1 = some cpOrigC8
    ∧ (svcStorageOnlyC8.get "c8").2._checkpoints.lookup "c8" = none :=
  ⟨rfl, rfl⟩

/-- Witness for C8 (amended), at the storage-only service. -/
theorem get_cache_first_witness :
    (svcStorageOnlyC8.get "c8").1 = some cpOrigC8
    ∧ (svcStorageOnlyC8.get "c8").2._checkpoints.lookup "c8" = none :=
  (get_cache_first_no_repopulate svcStorageOnlyC8 "c8").2.2.1 rfl
    { data := cpOrigC8, st_mtime := 5 } rfl

-- ----------------------------------------------------------------------
-- Claim C7: garbage collection
-- ----------------------------------------------------------------------

theorem lookup_isSome_of_mem {α : Type} {l : List (String × α)} {k : String} {v : α}
    (h : (k, v) ∈ l) : (l.lookup k).isSome := by
  induction l with
  | nil => simp at h
  | cons p t ih =>
    obtain ⟨k', v'⟩ := p
    by_cases hk : k = k'
    · subst hk
      simp [List.lookup]
    · have hb : (k == k') = false := beq_eq_false_iff_ne.mpr hk
      simp only [List.lookup, hb]
      rcases List.mem_cons.mp h with h1 | h2
      · injection h1 with h1a
        exact absurd h1a hk
      · exact ih h2

theorem delete_dir_lookup_self (svc : CheckpointService) (k : String) :
    ((svc.delete k).2).checkpoint_dir.lookup k = none := by
  unfold CheckpointService.delete
  by_cases h : (svc.checkpoint_dir.lookup k).isSome = true
  · rw [if_pos h]
    exact lookup_eraseKey_self _ _
  · rw [if_neg h]
    exact Option.not_isSome_iff_eq_none.mp (by simpa using h)

theorem delete_dir_lookup_ne (svc : CheckpointService) (k m : String) (h : m ≠ k) :
    ((svc.delete k).2).checkpoint_dir.lookup m = svc.checkpoint_dir.lookup m := by
  unfold CheckpointService.delete
  by_cases hk : (svc.checkpoint_dir.lookup k).isSome = true
  · rw [if_pos hk]
    exact lookup_eraseKey_ne _ _ _ h
  · rw [if_neg hk]

theorem gc_foldl_count (cutoff : Int) :
    ∀ (l : List (String × StoredEntry)) (acc : Nat × CheckpointService),
    (l.foldl (fun acc p =>
      if (p.2.st_mtime : Int) < cutoff then (acc.1 + 1, (acc.2.delete p.1).2)
      else acc) acc).1
    = acc.1 + (l.filter (fun p => decide ((p.2.st_mtime : Int) < cutoff))).length := by
  intro l
  induction l with
  | nil => simp
  | cons p t ih =>
    intro acc
    by_cases h : (p.2.st_mtime : Int) < cutoff
    · have hdec : decide ((p.2.st_mtime : Int) < cutoff) = true := decide_eq_true h
      rw [List.foldl_cons, if_pos h, ih, List.filter_cons, hdec]
      simp
      omega
    · have hdec : decide ((p.2.st_mtime : Int) < cutoff) = false :=
        decide_eq_false h
      rw [List.foldl_cons, if_neg h, ih, List.filter_cons, hdec]
      simp

theorem gc_foldl_lookup (cutoff : Int) :
    ∀ (l : List (String × StoredEntry)) (acc : Nat × CheckpointService) (id : String),
    ((l.foldl (fun acc p =>
      if (p.2.st_mtime : Int) < cutoff then (acc.1 + 1, (acc.2.delete p.1).2)
      else acc) acc).2).checkpoint_dir.lookup id
    = if id ∈ (l.filter (fun p =>
          decide ((p.2.st_mtime : Int) < cutoff))).map Prod.fst then none
      else acc.2.checkpoint_dir.lookup id := by
  intro l
  induction l with
  | nil => simp
  | cons p t ih =>
    intro acc id
    by_cases h : (p.2.st_mtime : Int) < cutoff
    · have hdec : decide ((p.2.st_mtime : Int) < cutoff) = true := decide_eq_true h
      rw [List.foldl_cons, if_pos h, ih, List.filter_cons, hdec, if_pos rfl,
        List.map_cons]
      by_cases hmem : id ∈ (t.filter (fun p =>
          decide ((p.2.st_mtime : Int) < cutoff))).map Prod.fst
      · rw [if_pos hmem, if_pos (List.mem_cons_of_mem _ hmem)]
      · by_cases hid : id = p.1
        · subst hid
          rw [if_neg hmem, if_pos (List.mem_cons_self _ _)]
          exact delete_dir_lookup_self _ _
        · rw [if_neg hmem, if_neg ?hout]
          case hout =>
            intro hc
            rcases List.mem_cons.mp hc with h1 | h2
            · exact hid h1
            · exact hmem h2
          exact delete_dir_lookup_ne _ _ _ hid
    · have hdec : decide ((p.2.st_mtime : Int) < cutoff) = false :=
        decide_eq_false h
      rw [List.foldl_cons, if_neg h, ih, List.filter_cons, hdec]
      simp

/-- C7: `gc(max_age_hours)` deletes exactly the stored checkpoint
records whose storage-level last-modified time is strictly older than
`now - max_age_hours` (in seconds), retains every newer record, and
returns a count equal to the number of records deleted. -/
theorem gc_threshold (svc : CheckpointService) (max_age_hours now : Nat)
    (hnd : (svc.checkpoint_dir.map Prod.fst).Nodup) :
    ((svc.gc max_age_hours now).1 =
      (svc.checkpoint_dir.filter (fun p =>
        decide ((p.2.st_mtime : Int) <
          (now : Int) - (max_age_hours : Int) * 3600))).length)
    ∧ (∀ id e, svc.checkpoint_dir.lookup id = some e →
        (e.st_mtime : Int) < (now : Int) - (max_age_hours : Int) * 3600 →
        ((svc.gc max_age_hours now).2).checkpoint_dir.lookup id = none)
    ∧ (∀ id e, svc.checkpoint_dir.lookup id = some e →
        ¬((e.st_mtime : Int) < (now : Int) - (max_age_hours : Int) * 3600) →
        ((svc.gc max_age_hours now).2).checkpoint_dir.lookup id = some e)
    ∧ (∀ id, svc.checkpoint_dir.lookup id = none →
        ((svc.gc max_age_hours now).2).checkpoint_dir.lookup id = none) := by
  have hgc : svc.gc max_age_hours now =
      svc.checkpoint_dir.foldl (fun acc p =>
        if (p.2.st_mtime : Int) < (now : Int) - (max_age_hours : Int) * 3600 then
          (acc.1 + 1, (acc.2.delete p.1).2)
        else acc) (0, svc) := rfl
  refine ⟨?_, ?_, ?_, ?_⟩
  · rw [hgc,
      gc_foldl_count ((now : Int) - (max_age_hours : Int) * 3600)
        svc.checkpoint_dir (0, svc)]
    simp
  · intro id e hid hold
    have hmem : id ∈ (svc.checkpoint_dir.filter (fun p =>
        decide ((p.2.st_mtime : Int) <
          (now : Int) - (max_age_hours : Int) * 3600))).map Prod.fst := by
      refine List.mem_map.mpr ⟨(id, e), ?_, rfl⟩
      exact List.mem_filter.mpr ⟨lookup_mem hid, by simpa using hold⟩
    rw [hgc,
      gc_foldl_lookup ((now : Int) - (max_age_hours : Int) * 3600)
        svc.checkpoint_dir (0, svc) id, if_pos hmem]
  · intro id e hid hnew
    have hnmem : id ∉ (svc.checkpoint_dir.filter (fun p =>
        decide ((p.2.st_mtime : Int) <
          (now : Int) - (max_age_hours : Int) * 3600))).map Prod.fst := by
      intro hmem
      obtain ⟨⟨id', e'⟩, hpe, hfst⟩ := List.mem_map.mp hmem
      obtain ⟨hmem', hdec⟩ := List.mem_filter.mp hpe
      simp only at hfst
      subst hfst
      have hl : svc.checkpoint_dir.lookup id' = some e' :=
        lookup_of_mem_nodup hnd hmem'
      rw [hid] at hl
      injection hl with hee
      subst hee
      exact hnew (by simpa using hdec)
    rw [hgc,
      gc_foldl_lookup ((now : Int) - (max_age_hours : Int) * 3600)
        svc.checkpoint_dir (0, svc) id, if_neg hnmem]
    exact hid
  · intro id hid
    have hnmem : id ∉ (svc.checkpoint_dir.filter (fun p =>
        decide ((p.2.st_mtime : Int) <
          (now : Int) - (max_age_hours : Int) * 3600))).map Prod.fst := by
      intro hmem
      obtain ⟨⟨id', e'⟩, hpe, hfst⟩ := List.mem_map.mp hmem
      obtain ⟨hmem', _⟩ := List.mem_filter.mp hpe
      simp only at hfst
      subst hfst
      have hs := lookup_isSome_of_mem hmem'
      rw [hid] at hs
      simp at hs
    rw [hgc,
      gc_foldl_lookup ((now : Int) - (max_age_hours : Int) * 3600)
        svc.checkpoint_dir (0, svc) id, if_neg hnmem]
    exact hid

/-- A one-old-one-new storage for the C7 witness: with
`max_age_hours = 1` and `now = 7200`, the entry at mtime 100 is older
than the cutoff 3600 and the entry at mtime 7000 is newer. -/
def svcGcC7 : CheckpointService :=
  { _checkpoints := [],
    checkpoint_dir :=
      [("old1", { data := cpOrigC2, st_mtime := 100 }),
       ("new1", { data := cpOrigC2, st_mtime := 7000 })] }

/-- Witness for C7: `gc 1 7200` on `svcGcC7` deletes exactly the old
record, retains the new one, and returns 1. -/
theorem gc_threshold_witness :
    (svcGcC7.gc 1 7200).1 = 1
    ∧ ((svcGcC7.gc 1 7200).2).checkpoint_dir.lookup "old1" = none
    ∧ ((svcGcC7.gc 1 7200).2).checkpoint_dir.lookup "new1" =
        some { data := cpOrigC2, st_mtime := 7000 } := by
  have h := gc_threshold svcGcC7 1 7200 (by decide)
  refine ⟨?_, ?_, ?_⟩
  · rw [h.1]
    rfl
  · exact h.2.1 "old1" { data := cpOrigC2, st_mtime := 100 } rfl (by decide)
  · exact h.2.2.1 "new1" { data := cpOrigC2, st_mtime := 7000 } rfl (by decide)

-- ----------------------------------------------------------------------
-- Claim C6: the readiness predicate
-- ----------------------------------------------------------------------

/-- Characterization of `_get_executable_nodes` membership (shared
helper): under unique node ids, a node id is in the ready set iff all
its dependencies have results and it has none itself. -/
theorem mem_executable_iff (ex : SubgraphExecution)
    (hnd : (ex.nodes.map Prod.fst).Nodup) (nid : String) (node : SubgraphNode)
    (h : ex.nodes.lookup nid = some node) :
    nid ∈ _get_executable_nodes ex ↔
      ((∀ d ∈ node.depends_on, ex.node_results.hasKey d = true)
        ∧ ex.node_results.hasKey nid = false) := by
  unfold _get_executable_nodes
  constructor
  · intro hmem
    obtain ⟨⟨nid', node'⟩, hpf, hfst⟩ := List.mem_map.mp hmem
    obtain ⟨hpmem, hp⟩ := List.mem_filter.mp hpf
    simp only at hfst
    subst hfst
    have hl : ex.nodes.lookup nid' = some node' := lookup_of_mem_nodup hnd hpmem
    rw [h] at hl
    injection hl with hnn
    subst hnn
    simp only [Bool.and_eq_true, Bool.not_eq_true'] at hp
    exact ⟨fun d hd => List.all_eq_true.mp hp.1 d hd, hp.2⟩
  · intro ⟨hdeps, hres⟩
    refine List.mem_map.mpr ⟨(nid, node), ?_, rfl⟩
    refine List.mem_filter.mpr ⟨lookup_mem h, ?_⟩
    simp only [Bool.and_eq_true, Bool.not_eq_true']
    exact ⟨List.all_eq_true.mpr (fun d hd => hdeps d hd), hres⟩

/-- C6: the ready set computed by the executor contains a node id
exactly when every id in that node's `depends_on` list has an entry in
`node_results` and the node itself has no entry in `node_results`; no
other condition (edges, node status, retry count) affects membership. -/
theorem ready_set_iff (ex : SubgraphExecution)
    (hnd : (ex.nodes.map Prod.fst).Nodup) (nid : String) (node : SubgraphNode)
    (h : ex.nodes.lookup nid = some node) :
    nid ∈ _get_executable_nodes ex ↔
      ((∀ d ∈ node.depends_on, ex.node_results.hasKey d = true)
        ∧ ex.node_results.hasKey nid = false) :=
  mem_executable_iff ex hnd nid node h

/-- Nodes for the C6 witness: `b` depends on `a`, `a` already has a
recorded result, so `b` is ready. -/
def nodeC6a : SubgraphNode :=
  { id := "a", name := "A", agent_type := "w", depends_on := [] }

def nodeC6b : SubgraphNode :=
  { id := "b", name := "B", agent_type := "w", depends_on := ["a"] }

def exC6 : SubgraphExecution :=
  { id := "e", subgraph_id := "sg",
    nodes := [("a", nodeC6a), ("b", nodeC6b)], edges := [],
    node_results := JsonObj.cons "a" (Json.str "done") JsonObj.nil }

/-- Witness for C6: `b` is in the ready set of `exC6`. -/
theorem ready_set_iff_witness : "b" ∈ _get_executable_nodes exC6 :=
  (ready_set_iff exC6 (by decide) "b" nodeC6b rfl).mpr
    ⟨by decide, by decide⟩

-- ----------------------------------------------------------------------
-- Claim C5: deadlock on a cyclic graph
-- ----------------------------------------------------------------------

/-- If no node is ready and the graph is not exhausted, the polling
loop of `execute` makes no progress: it sleeps and re-polls the same
unchanged execution until the modelling fuel runs out, for every fuel
value — i.e. the source loop runs forever. -/
theorem executeLoop_stalls (agent : AgentFn) (nodeFuel : Nat)
    (ex : SubgraphExecution) (hready : _get_executable_nodes ex = [])
    (hproc : allProcessed ex = false) :
    ∀ loopFuel, executeLoop agent nodeFuel loopFuel ex =
      (ex, [], ExecOutcome.stalled)
  | 0 => rfl
  | loopFuel + 1 => by
    rw [executeLoop, hready, hproc]
    exact executeLoop_stalls agent nodeFuel ex hready hproc loopFuel

/-- The cyclic two-node graph: `a` depends on `b` and `b` depends on
`a`; no node has failed and no node has a result. -/
def cyclicExC5 : SubgraphExecution :=
  create_subgraph "e" "sgcyc"
    [{ id := "a", name := "A", agent_type := "w", depends_on := ["b"] },
     { id := "b", name := "B", agent_type := "w", depends_on := ["a"] }] []

/-- C5 (code-bug exhibit): on the cyclic graph, for every loop fuel,
`execute` is still spinning in its busy-poll loop — it never completes,
never reports any error, and never invokes an agent; the source
therefore hangs forever instead of reporting a deadlock. -/
theorem cyclic_graph_spins_forever (agent : AgentFn) (nodeFuel loopFuel : Nat)
    (init : JsonObj) (t_start t_end : String) :
    (execute agent nodeFuel loopFuel cyclicExC5 init t_start t_end).outcome =
      ExecOutcome.stalled
    ∧ (execute agent nodeFuel loopFuel cyclicExC5 init t_start t_end).trace = [] := by
  have hready : _get_executable_nodes
      { id := cyclicExC5.id, subgraph_id := cyclicExC5.subgraph_id,
        nodes := cyclicExC5.nodes, edges := cyclicExC5.edges, state := init,
        node_results := cyclicExC5.node_results,
        status := SubgraphState.running, started_at := some t_start,
        completed_at := cyclicExC5.completed_at } = [] := rfl
  have hproc : allProcessed
      { id := cyclicExC5.id, subgraph_id := cyclicExC5.subgraph_id,
        nodes := cyclicExC5.nodes, edges := cyclicExC5.edges, state := init,
        node_results := cyclicExC5.node_results,
        status := SubgraphState.running, started_at := some t_start,
        completed_at := cyclicExC5.completed_at } = false := rfl
  simp only [execute]
  rw [executeLoop_stalls agent nodeFuel _ hready hproc loopFuel]
  exact ⟨rfl, rfl⟩

-- ----------------------------------------------------------------------
-- Claim C9: the per-node status state machine
-- ----------------------------------------------------------------------

/-- The `status` field of the node registered under `nid`. -/
def node_status (ex : SubgraphExecution) (nid : String) : Option SubgraphState :=
  (ex.nodes.lookup nid).map SubgraphNode.status

/-- Single-node graph whose agent always succeeds. -/
def exOkC9 : SubgraphExecution :=
  create_subgraph "e" "sgok"
    [{ id := "a", name := "A", agent_type := "w", depends_on := [] }] []

/-- Single-node graph with `max_retries = 2` whose agent always fails. -/
def exFailC9 : SubgraphExecution :=
  create_subgraph "e" "sgfail"
    [{ id := "a", name := "A", agent_type := "w", depends_on := [],
       max_retries := 2 }] []

def okAgentC9 : AgentFn := fun _ _ _ => Except.ok (Json.str "r")

def failAgentC9 : AgentFn := fun _ _ _ => Except.error "boom"

/-- C9 (code-bug exhibit): the code never assigns to a node's `status`
field.  After a successful run the node has its result recorded in
`node_results` and the run completed, yet the node's status is still
`PENDING` (not `COMPLETED`); after a run that exhausts the node's retry
budget the execution status is `FAILED`, yet the node's own status is
also still `PENDING` (not `FAILED`), so the executor's exhaustion check
can never see a `FAILED` node. -/
theorem node_status_never_transitions :
    ((execute okAgentC9 1 2 exOkC9 JsonObj.nil "t1" "t2").ex.node_results.hasKey
        "a" = true
      ∧ (execute okAgentC9 1 2 exOkC9 JsonObj.nil "t1" "t2").outcome =
          ExecOutcome.completed
      ∧ node_status (execute okAgentC9 1 2 exOkC9 JsonObj.nil "t1" "t2").ex "a" =
          some SubgraphState.pending)
    ∧ ((execute failAgentC9 2 1 exFailC9 JsonObj.nil "t1" "t2").ex.status =
          SubgraphState.failed
      ∧ node_status (execute failAgentC9 2 1 exFailC9 JsonObj.nil "t1" "t2").ex
          "a" = some SubgraphState.pending) := by
  exact ⟨⟨by decide, by decide, by decide⟩, by decide, by decide⟩

-- ----------------------------------------------------------------------
-- Claim C10: re-executing a finished subgraph
-- ----------------------------------------------------------------------

/-- C10: calling `execute` on an execution record all of whose nodes
already have entries in `node_results` (as persists in the registry
after a completed run) returns immediately with status `COMPLETED`,
invokes no agent capability (empty invocation trace), and leaves
`nodes`, `edges` and `node_results` unchanged; only `state`,
`started_at`, `completed_at` (and the overall status) are overwritten. -/
theorem reexecute_finished_noop (agent : AgentFn) (nodeFuel lf : Nat)
    (ex0 : SubgraphExecution) (init : JsonObj) (t_start t_end : String)
    (hall : ∀ p ∈ ex0.nodes, ex0.node_results.hasKey p.1 = true) :
    execute agent nodeFuel (lf + 1) ex0 init t_start t_end =
      { ex :=
          { ex0 with
            state := init, status := SubgraphState.completed,
            started_at := some t_start, completed_at := some t_end },
        trace := [], outcome := ExecOutcome.completed } := by
  have hf : ex0.nodes.filter (fun p =>
      p.2.depends_on.all (fun dep => ex0.node_results.hasKey dep) &&
      !(ex0.node_results.hasKey p.1)) = [] := by
    rw [List.filter_eq_nil_iff]
    intro p hp
    simp [hall p hp]
  have hready : _get_executable_nodes
      { id := ex0.id, subgraph_id := ex0.subgraph_id, nodes := ex0.nodes,
        edges := ex0.edges, state := init, node_results := ex0.node_results,
        status := SubgraphState.running, started_at := some t_start,
        completed_at := ex0.completed_at } = [] := by
    simp only [_get_executable_nodes, hf, List.map_nil]
  have hproc : allProcessed
      { id := ex0.id, subgraph_id := ex0.subgraph_id, nodes := ex0.nodes,
        edges := ex0.edges, state := init, node_results := ex0.node_results,
        status := SubgraphState.running, started_at := some t_start,
        completed_at := ex0.completed_at } = true := by
    simp only [allProcessed, List.all_eq_true]
    intro p hp
    simp [hall p hp]
  simp only [execute, executeLoop]
  rw [hready]
  simp only [hproc]
  simp

def anyAgentC10 : AgentFn := fun _ _ _ => Except.ok Json.null

/-- A finished single-node execution record: its node already has an
entry in `node_results` (as left in the registry by a completed run). -/
def exDoneC10 : SubgraphExecution :=
  { id := "e", subgraph_id := "sg",
    nodes := [("a", { id := "a", name := "A", agent_type := "w",
                      depends_on := [] })],
    edges := [],
    node_results := JsonObj.cons "a" (Json.str "r") JsonObj.nil,
    status := SubgraphState.completed,
    started_at := some "s0", completed_at := some "e0" }

/-- Witness for C10: re-executing the finished record makes no agent
call, leaves `node_results` unchanged and ends `COMPLETED`. -/
theorem reexecute_finished_noop_witness :
    execute anyAgentC10 1 (0 + 1) exDoneC10 JsonObj.nil "s1" "e1" =
      { ex :=
          { exDoneC10 with
            state := JsonObj.nil, status := SubgraphState.completed,
            started_at := some "s1", completed_at := some "e1" },
        trace := [], outcome := ExecOutcome.completed } :=
  reexecute_finished_noop anyAgentC10 1 0 exDoneC10 JsonObj.nil "s1" "e1"
    (by decide)

-- ----------------------------------------------------------------------
-- Claim C3: retry exhaustion
-- ----------------------------------------------------------------------

/-- A graph consisting of the single node under test, with
`max_retries = 2` and no dependencies. -/
def singleFailExC3 (nid nm atp : String) : SubgraphExecution :=
  { id := "exec", subgraph_id := "sg",
    nodes := [(nid, { id := nid, name := nm, agent_type := atp,
                      depends_on := [], max_retries := 2 })],
    edges := [] }

/-- C3: for a node whose agent invocation fails on every attempt and
whose `max_retries` is 2, `execute` attempts that node exactly 2 times,
leaves no entry for it in `node_results`, sets the execution status to
`FAILED`, and propagates the node's error to the caller (`execute` does
not return normally and `completed_at` is never set). -/
theorem retry_exhaustion (agent : AgentFn) (nid nm atp : String)
    (init : JsonObj) (t_start t_end : String) (nf lf : Nat)
    (hfail : ∀ inp k, ∃ e, agent atp inp k = Except.error e) :
    (((execute agent (nf + 1 + 1) (lf + 1) (singleFailExC3 nid nm atp)
        init t_start t_end).trace.filter
          (fun ev => ev.node == nid)).length = 2)
    ∧ ((execute agent (nf + 1 + 1) (lf + 1) (singleFailExC3 nid nm atp)
        init t_start t_end).ex.node_results.lookup nid = none)
    ∧ ((execute agent (nf + 1 + 1) (lf + 1) (singleFailExC3 nid nm atp)
        init t_start t_end).ex.status = SubgraphState.failed)
    ∧ (∃ e, (execute agent (nf + 1 + 1) (lf + 1) (singleFailExC3 nid nm atp)
        init t_start t_end).outcome = ExecOutcome.raised e)
    ∧ ((execute agent (nf + 1 + 1) (lf + 1) (singleFailExC3 nid nm atp)
        init t_start t_end).ex.completed_at = none) := by
  obtain ⟨e1, he1⟩ := hfail (JsonObj.cons "state" (Json.obj init) JsonObj.nil) 0
  obtain ⟨e2, he2⟩ := hfail (JsonObj.cons "state" (Json.obj init) JsonObj.nil) 1
  refine ⟨?_, ?_, ?_, ⟨e2, ?_⟩, ?_⟩ <;>
    simp [execute, executeLoop, runWave, _execute_node, _get_executable_nodes,
      _prepare_input, _map_output, singleFailExC3, setk, List.lookup,
      JsonObj.keys, JsonObj.hasKey, JsonObj.lookup, he1, he2]

/-- Witness for C3, at a concrete always-failing agent. -/
theorem retry_exhaustion_witness :
    (((execute (fun _ _ _ => Except.error "boom") (0 + 1 + 1) (0 + 1)
        (singleFailExC3 "n" "N" "w") JsonObj.nil "s" "e").trace.filter
          (fun ev => ev.node == "n")).length = 2)
    ∧ ((execute (fun _ _ _ => Except.error "boom") (0 + 1 + 1) (0 + 1)
        (singleFailExC3 "n" "N" "w") JsonObj.nil "s" "e").ex.status =
          SubgraphState.failed) :=
  ⟨(retry_exhaustion (fun _ _ _ => Except.error "boom") "n" "N" "w"
      JsonObj.nil "s" "e" 0 0 (fun _ _ => ⟨"boom", rfl⟩)).1,
   (retry_exhaustion (fun _ _ _ => Except.error "boom") "n" "N" "w"
      JsonObj.nil "s" "e" 0 0 (fun _ _ => ⟨"boom", rfl⟩)).2.2.1⟩

-- ----------------------------------------------------------------------
-- Claim C4: dependency ordering
-- ----------------------------------------------------------------------

/-- The `depends_on` list of the node registered under `m`, if any.
Node updates during execution only touch `retry_count`, so this map is
invariant along a run. -/
def nodeDeps (ex : SubgraphExecution) (m : String) : Option (List String) :=
  (ex.nodes.lookup m).map SubgraphNode.depends_on

/-- An observed agent invocation respects the dependencies: every
dependency of the invoked node was recorded in `node_results` at the
moment of the call. -/
def evOK (ex : SubgraphExecution) (ev : Event) : Prop :=
  ∀ ds, nodeDeps ex ev.node = some ds → ∀ d ∈ ds, d ∈ ev.resultKeys

theorem map_fst_setk {α : Type} (l : List (String × α)) (k : String) (v : α)
    (h : (l.lookup k).isSome = true) :
    (setk l k v).map Prod.fst = l.map Prod.fst := by
  induction l with
  | nil => simp [List.lookup] at h
  | cons p t ih =>
    obtain ⟨k', v'⟩ := p
    by_cases hk : k = k'
    · subst hk
      simp [setk]
    · have hb : (k == k') = false := beq_eq_false_iff_ne.mpr hk
      simp only [List.lookup, hb] at h
      simp [setk, hb, ih h]

theorem _execute_node_map_fst (agent : AgentFn) :
    ∀ (fuel : Nat) (ex : SubgraphExecution) (nid : String),
    (_execute_node agent fuel ex nid).1.nodes.map Prod.fst =
      ex.nodes.map Prod.fst := by
  intro fuel
  induction fuel with
  | zero => intro ex nid; rfl
  | succ fuel ih =>
    intro ex nid
    simp only [_execute_node]
    rcases hlook : ex.nodes.lookup nid with _ | node
    · rfl
    · dsimp only
      rcases agent node.agent_type (_prepare_input ex node) node.retry_count
        with e | v
      · dsimp only
        by_cases hret : node.retry_count + 1 < node.max_retries
        · rw [if_pos hret]
          rw [ih]
          exact map_fst_setk ex.nodes nid _ (by rw [hlook]; rfl)
        · rw [if_neg hret]
          exact map_fst_setk ex.nodes nid _ (by rw [hlook]; rfl)
      · rfl

theorem _execute_node_nodeDeps (agent : AgentFn) :
    ∀ (fuel : Nat) (ex : SubgraphExecution) (nid m : String),
    nodeDeps (_execute_node agent fuel ex nid).1 m = nodeDeps ex m := by
  intro fuel
  induction fuel with
  | zero => intro ex nid m; rfl
  | succ fuel ih =>
    intro ex nid m
    simp only [_execute_node]
    rcases hlook : ex.nodes.lookup nid with _ | node
    · rfl
    · dsimp only
      rcases agent node.agent_type (_prepare_input ex node) node.retry_count
        with e | v
      · dsimp only
        have hsetk : ∀ node' : SubgraphNode,
            node'.depends_on = node.depends_on →
            nodeDeps { ex with nodes := setk ex.nodes nid node' } m =
              nodeDeps ex m := by
          intro node' hdeps
          unfold nodeDeps
          by_cases hm : m = nid
          · subst hm
            rw [lookup_setk_self, hlook]
            simp [hdeps]
          · rw [lookup_setk_ne ex.nodes nid m _ hm]
        by_cases hret : node.retry_count + 1 < node.max_retries
        · rw [if_pos hret, ih]
          exact hsetk _ rfl
        · rw [if_neg hret]
          exact hsetk _ rfl
      · rfl

theorem _execute_node_results_mono (agent : AgentFn) :
    ∀ (fuel : Nat) (ex : SubgraphExecution) (nid d : String),
    ex.node_results.hasKey d = true →
    (_execute_node agent fuel ex nid).1.node_results.hasKey d = true := by
  intro fuel
  induction fuel with
  | zero => intro ex nid d h; exact h
  | succ fuel ih =>
    intro ex nid d h
    simp only [_execute_node]
    rcases hlook : ex.nodes.lookup nid with _ | node
    · exact h
    · dsimp only
      rcases agent node.agent_type (_prepare_input ex node) node.retry_count
        with e | v
      · dsimp only
        by_cases hret : node.retry_count + 1 < node.max_retries
        · rw [if_pos hret]
          exact ih _ nid d h
        · rw [if_neg hret]
          exact h
      · exact JsonObj.hasKey_setk ex.node_results nid d _ h

theorem _execute_node_trace (agent : AgentFn) :
    ∀ (fuel : Nat) (ex : SubgraphExecution) (nid : String),
    ∀ ev ∈ (_execute_node agent fuel ex nid).2.1,
      ev.node = nid ∧ ev.resultKeys = ex.node_results.keys := by
  intro fuel
  induction fuel with
  | zero => intro ex nid ev hev; simp [_execute_node] at hev
  | succ fuel ih =>
    intro ex nid ev hev
    simp only [_execute_node] at hev
    rcases hlook : ex.nodes.lookup nid with _ | node
    · rw [hlook] at hev
      simp at hev
    · rw [hlook] at hev
      dsimp only at hev
      rcases hag : agent node.agent_type (_prepare_input ex node) node.retry_count
        with e | v
      · rw [hag] at hev
        dsimp only at hev
        by_cases hret : node.retry_count + 1 < node.max_retries
        · rw [if_pos hret] at hev
          rcases List.mem_cons.mp hev with h1 | h2
          · subst h1
            exact ⟨rfl, rfl⟩
          · have htail := ih _ nid ev h2
            exact htail
        · rw [if_neg hret] at hev
          rcases List.mem_cons.mp hev with h1 | h2
          · subst h1
            exact ⟨rfl, rfl⟩
          · simp at h2
      · rw [hag] at hev
        dsimp only at hev
        rcases List.mem_cons.mp hev with h1 | h2
        · subst h1
          exact ⟨rfl, rfl⟩
        · simp at h2

theorem runWave_props (agent : AgentFn) (nodeFuel : Nat) :
    ∀ (wave : List String) (ex : SubgraphExecution),
    (∀ nid ∈ wave, ∀ ds, nodeDeps ex nid = some ds →
        ∀ d ∈ ds, ex.node_results.hasKey d = true) →
    ((∀ ev ∈ (runWave agent nodeFuel ex wave).2.1, evOK ex ev)
      ∧ ((runWave agent nodeFuel ex wave).1.nodes.map Prod.fst =
          ex.nodes.map Prod.fst)
      ∧ (∀ m, nodeDeps (runWave agent nodeFuel ex wave).1 m = nodeDeps ex m)
      ∧ (∀ d, ex.node_results.hasKey d = true →
          (runWave agent nodeFuel ex wave).1.node_results.hasKey d = true)) := by
  intro wave
  induction wave with
  | nil =>
    intro ex h
    exact ⟨by simp [runWave], rfl, fun m => rfl, fun d hd => hd⟩
  | cons nid rest ih =>
    intro ex h
    obtain ⟨ihev, ihmf, ihdeps, ihmono⟩ :=
      ih (_execute_node agent nodeFuel ex nid).1 (by
        intro nid' hmem ds hds d hd
        rw [_execute_node_nodeDeps agent nodeFuel ex nid nid'] at hds
        exact _execute_node_results_mono agent nodeFuel ex nid d
          (h nid' (List.mem_cons_of_mem _ hmem) ds hds d hd))
    refine ⟨?_, ?_, ?_, ?_⟩
    · intro ev hev
      simp only [runWave] at hev
      rcases List.mem_append.mp hev with h1 | h2
      · obtain ⟨hnode, hkeys⟩ := _execute_node_trace agent nodeFuel ex nid ev h1
        intro ds hds d hd
        rw [hkeys, ← JsonObj.hasKey_iff_mem_keys]
        rw [hnode] at hds
        exact h nid (List.mem_cons_self _ _) ds hds d hd
      · intro ds hds d hd
        refine ihev ev h2 ds ?_ d hd
        rw [_execute_node_nodeDeps]
        exact hds
    · simp only [runWave]
      rw [ihmf, _execute_node_map_fst]
    · intro m
      simp only [runWave]
      rw [ihdeps m, _execute_node_nodeDeps]
    · intro d hd
      simp only [runWave]
      exact ihmono d (_execute_node_results_mono agent nodeFuel ex nid d hd)

theorem executeLoop_props (agent : AgentFn) (nodeFuel : Nat) :
    ∀ (loopFuel : Nat) (ex : SubgraphExecution),
    (ex.nodes.map Prod.fst).Nodup →
    ∀ ev ∈ (executeLoop agent nodeFuel loopFuel ex).2.1, evOK ex ev := by
  intro loopFuel
  induction loopFuel with
  | zero =>
    intro ex hnd ev hev
    simp [executeLoop] at hev
  | succ fuel ih =>
    intro ex hnd ev hev
    simp only [executeLoop] at hev
    rcases hexec : _get_executable_nodes ex with _ | ⟨nid, rest⟩
    · rw [hexec] at hev
      dsimp only at hev
      by_cases hproc : allProcessed ex = true
      · rw [if_pos hproc] at hev
        simp at hev
      · rw [if_neg hproc] at hev
        exact ih ex hnd ev hev
    · rw [hexec] at hev
      dsimp only at hev
      have hw : ∀ nid' ∈ (nid :: rest), ∀ ds, nodeDeps ex nid' = some ds →
          ∀ d ∈ ds, ex.node_results.hasKey d = true := by
        intro nid' hmem ds hds d hd
        obtain ⟨node, hlook, hdeps⟩ := Option.map_eq_some'.mp hds
        have hmem' : nid' ∈ _get_executable_nodes ex := by
          rw [hexec]
          exact hmem
        have hiff := (mem_executable_iff ex hnd nid' node hlook).mp hmem'
        cases hdeps
        exact hiff.1 d hd
      obtain ⟨hwev, hwmf, hwdeps, hwmono⟩ :=
        runWave_props agent nodeFuel (nid :: rest) ex hw
      rcases herr : (runWave agent nodeFuel ex (nid :: rest)).2.2 with _ | e
      · rw [herr] at hev
        dsimp only at hev
        rcases List.mem_append.mp hev with h1 | h2
        · exact hwev ev h1
        · have hnd' : ((runWave agent nodeFuel ex
              (nid :: rest)).1.nodes.map Prod.fst).Nodup := by
            rw [hwmf]
            exact hnd
          have hev' := ih _ hnd' ev h2
          intro ds hds d hd
          refine hev' ds ?_ d hd
          rw [hwdeps]
          exact hds
      · rw [herr] at hev
        dsimp only at hev
        exact hwev ev hev

theorem execute_trace_eq (agent : AgentFn) (nodeFuel loopFuel : Nat)
    (ex0 : SubgraphExecution) (initial_state : JsonObj)
    (t_start t_end : String) :
    (execute agent nodeFuel loopFuel ex0 initial_state t_start t_end).trace =
      (executeLoop agent nodeFuel loopFuel
        { id := ex0.id, subgraph_id := ex0.subgraph_id, nodes := ex0.nodes,
          edges := ex0.edges, state := initial_state,
          node_results := ex0.node_results, status := SubgraphState.running,
          started_at := some t_start,
          completed_at := ex0.completed_at }).2.1 := by
  simp only [execute]
  rcases (executeLoop agent nodeFuel loopFuel
      { id := ex0.id, subgraph_id := ex0.subgraph_id, nodes := ex0.nodes,
        edges := ex0.edges, state := initial_state,
        node_results := ex0.node_results, status := SubgraphState.running,
        started_at := some t_start,
        completed_at := ex0.completed_at }).2.2 with _ | e | _
  · rfl
  · rfl
  · rfl

/-- C4: for every graph (with unique node ids) and every node, `execute`
never invokes the node's agent capability before every id in the node's
`depends_on` list has a recorded entry in `node_results`: every observed
invocation's `node_results` snapshot contains all of the invoked node's
dependencies. -/
theorem dependency_ordering (agent : AgentFn) (nodeFuel loopFuel : Nat)
    (ex0 : SubgraphExecution) (initial_state : JsonObj)
    (t_start t_end : String)
    (hnd : (ex0.nodes.map Prod.fst).Nodup) (ev : Event)
    (hev : ev ∈ (execute agent nodeFuel loopFuel ex0 initial_state
        t_start t_end).trace)
    (node : SubgraphNode) (hnode : ex0.nodes.lookup ev.node = some node) :
    ∀ d ∈ node.depends_on, d ∈ ev.resultKeys := by
  rw [execute_trace_eq] at hev
  have hOK := executeLoop_props agent nodeFuel loopFuel
    { id := ex0.id, subgraph_id := ex0.subgraph_id, nodes := ex0.nodes,
      edges := ex0.edges, state := initial_state,
      node_results := ex0.node_results, status := SubgraphState.running,
      started_at := some t_start, completed_at := ex0.completed_at }
    hnd ev hev
  intro d hd
  refine hOK node.depends_on ?_ d hd
  show (ex0.nodes.lookup ev.node).map SubgraphNode.depends_on =
    some node.depends_on
  rw [hnode]
  rfl

def nodeC4a : SubgraphNode :=
  { id := "a", name := "A", agent_type := "w", depends_on := [] }

def nodeC4b : SubgraphNode :=
  { id := "b", name := "B", agent_type := "w", depends_on := ["a"] }

def nodeC4c : SubgraphNode :=
  { id := "c", name := "C", agent_type := "w", depends_on := ["b"] }

/-- The chain `A -> B -> C` (C depends on B, B depends on A). -/
def chainExC4 : SubgraphExecution :=
  create_subgraph "e" "sgchain" [nodeC4a, nodeC4b, nodeC4c] []

def okAgentC4 : AgentFn := fun t _ _ => Except.ok (Json.str t)

/-- Witness for C4: in the run of the chain, the observed invocation of
`c` (whose `node_results` snapshot is `["a", "b"]`) indeed contains its
dependency `b`. -/
theorem dependency_ordering_witness :
    "b" ∈ (Event.mk "c" ["a", "b"] 0).resultKeys :=
  dependency_ordering okAgentC4 1 4 chainExC4 JsonObj.nil "s" "e"
    (by decide) (Event.mk "c" ["a", "b"] 0) (by decide) nodeC4c rfl
    "b" (by decide)
